import Mathlib

/-!
Verification of the kubemcp log-processing, formatting and audit layer.

The TypeScript sources are shallowly embedded:

* a JavaScript string is modelled as a `List Char` (a list of Unicode scalar
  values); `String.prototype.split('\n')`, `Array.prototype.join('\n')`,
  `toUpperCase` (ASCII-relevant here), `trim`-emptiness and
  `String.prototype.includes` are modelled by executable list functions;
* `Buffer.byteLength(s, 'utf8')`, `TextEncoder.encode` and
  `TextDecoder('utf8', { fatal: false }).decode` are modelled by an executable
  UTF-8 encoder and by the WHATWG UTF-8 decoder with U+FFFD replacement;
* the regular-expression engine behind `new RegExp(pattern, 'i')` and the
  normalisation regexes of the summarizer are kept abstract (a compile
  function / a normaliser is a parameter), since the claims under scrutiny do
  not depend on regex semantics;
* the in-memory audit module state (dry-run flag, audit configuration,
  session ledger) becomes an explicit state record, and the stateful
  functions become state-passing functions.
-/

/-- A JavaScript string, as a list of Unicode scalar values. -/
abbrev Line := List Char

/-- Uppercase a line; models `String.prototype.toUpperCase` on the ASCII
range, which is all the severity keywords use. -/
def upperLine (l : Line) : Line := l.map Char.toUpper

/-- `startsWithL l p` is true iff `p` is an initial segment of `l`. -/
def startsWithL : Line → Line → Bool
  | _, [] => true
  | [], _ :: _ => false
  | c :: cs, d :: ds => c == d && startsWithL cs ds

/-- `containsStr l sub` models `l.includes(sub)`: `sub` occurs as a
contiguous substring of `l`. -/
def containsStr : Line → Line → Bool
  | [], sub => sub.isEmpty
  | c :: cs, sub => startsWithL (c :: cs) sub || containsStr cs sub

/-- Models `s.split('\n')`: the (possibly empty) chunks of `s` between
newline characters.  As in JavaScript, the result is never the empty list. -/
def splitLines : Line → List Line
  | [] => [[]]
  | c :: cs =>
    let r := splitLines cs
    if c = '\n' then [] :: r
    else
      match r with
      | h :: t => (c :: h) :: t
      | [] => [[c]]

/-- Models `lines.join('\n')`. -/
def joinLines : List Line → Line
  | [] => []
  | [l] => l
  | l :: ls => l ++ '\n' :: joinLines ls

/-- The JavaScript white-space characters recognised by
`String.prototype.trim`. -/
def isJsWhitespace (c : Char) : Bool :=
  c = ' ' || c = '\t' || c = '\n' || c = '\r' ||
  c = Char.ofNat 0x0B || c = Char.ofNat 0x0C ||
  c = Char.ofNat 0xA0 || c = Char.ofNat 0xFEFF ||
  c = Char.ofNat 0x1680 ||
  (Char.ofNat 0x2000 ≤ c && c ≤ Char.ofNat 0x200A) ||
  c = Char.ofNat 0x2028 || c = Char.ofNat 0x2029 ||
  c = Char.ofNat 0x202F || c = Char.ofNat 0x205F || c = Char.ofNat 0x3000

/-- `trimEmpty l` is true iff `l.trim()` is the empty string, i.e. iff the
JavaScript test `!l.trim()` succeeds. -/
def trimEmpty (l : Line) : Bool := l.all isJsWhitespace

/-- Number of bytes of the UTF-8 encoding of one scalar value. -/
def utf8CharLen (c : Char) : Nat :=
  if c.toNat < 0x80 then 1
  else if c.toNat < 0x800 then 2
  else if c.toNat < 0x10000 then 3
  else 4

/-- Models `Buffer.byteLength(l, 'utf8')`. -/
def utf8ByteLen (l : Line) : Nat := (l.map utf8CharLen).sum

/-!
## Severity classifier (`detectSeverity`, src log-filter module)
-/

/-- The severity tiers, including the `UNKNOWN` fallback. -/
inductive Severity where
  | ERROR
  | WARN
  | INFO
  | DEBUG
  | TRACE
  | UNKNOWN
deriving DecidableEq, Repr

/-- ERROR-family keyword test on the uppercased line. -/
def hasErrorKw (u : Line) : Bool :=
  containsStr u "ERROR".toList || containsStr u "FATAL".toList ||
  containsStr u "SEVERE".toList ||
  containsStr u "\"LEVEL\":\"ERROR\"".toList ||
  containsStr u "LEVEL=ERROR".toList

/-- WARN-family keyword test on the uppercased line. -/
def hasWarnKw (u : Line) : Bool :=
  containsStr u "WARN".toList || containsStr u "WARNING".toList ||
  containsStr u "\"LEVEL\":\"WARN\"".toList ||
  containsStr u "LEVEL=WARN".toList

/-- DEBUG keyword test on the uppercased line. -/
def hasDebugKw (u : Line) : Bool :=
  containsStr u "DEBUG".toList ||
  containsStr u "\"LEVEL\":\"DEBUG\"".toList ||
  containsStr u "LEVEL=DEBUG".toList

/-- TRACE keyword test on the uppercased line. -/
def hasTraceKw (u : Line) : Bool :=
  containsStr u "TRACE".toList ||
  containsStr u "\"LEVEL\":\"TRACE\"".toList ||
  containsStr u "LEVEL=TRACE".toList

/-- INFO keyword test on the uppercased line. -/
def hasInfoKw (u : Line) : Bool :=
  containsStr u "INFO".toList ||
  containsStr u "\"LEVEL\":\"INFO\"".toList ||
  containsStr u "LEVEL=INFO".toList

/-- `detectSeverity`: uppercase the line and test the keyword families in
the source's order, first match wins. -/
def detectSeverity (line : Line) : Severity :=
  let u := upperLine line
  if hasErrorKw u then .ERROR
  else if hasWarnKw u then .WARN
  else if hasDebugKw u then .DEBUG
  else if hasTraceKw u then .TRACE
  else if hasInfoKw u then .INFO
  else .UNKNOWN

/-- The numeric filtering priority used by `filterBySeverity`. -/
def severityPriority : Severity → Nat
  | .ERROR => 0
  | .WARN => 1
  | .INFO => 2
  | .DEBUG => 3
  | .TRACE => 4
  | .UNKNOWN => 5

/-- The predicate `filterBySeverity` applies to each line: blank lines are
dropped, otherwise the line is kept iff its detected priority is at most the
floor's priority. -/
def keepLine (floor : Severity) (line : Line) : Bool :=
  !trimEmpty line &&
    severityPriority (detectSeverity line) ≤ severityPriority floor

/-- `filterBySeverity`: split, filter by `keepLine`, rejoin. -/
def filterBySeverity (logs : Line) (floor : Severity) : Line :=
  joinLines ((splitLines logs).filter (keepLine floor))

/-!
## Grep filter (`grepLogs`)

The regular-expression engine behind `new RegExp(pattern, 'i')` is kept
abstract: compiling a pattern either fails (the constructor throws) or
yields a line predicate (`regex.test`).
-/

/-- An abstract case-insensitive regular-expression engine. -/
structure RegexEngine where
  compile : Line → Option (Line → Bool)

/-- The error message thrown for an uncompilable pattern. -/
def invalidPatternMsg (pattern : Line) : Line :=
  "Invalid grep pattern: ".toList ++ pattern

/-- `grepLogs`: compile the pattern; on failure throw the descriptive
error, otherwise keep the matching lines in order and rejoin. -/
def grepLogs (E : RegexEngine) (logs pattern : Line) : Except Line Line :=
  match E.compile pattern with
  | none => .error (invalidPatternMsg pattern)
  | some test => .ok (joinLines ((splitLines logs).filter test))

/-!
## UTF-8 encoding and WHATWG decoding (`TextEncoder` / `TextDecoder`)
-/

/-- UTF-8 encoding of one scalar value (`TextEncoder` per character). -/
def utf8EncodeChar (c : Char) : List Nat :=
  let v := c.toNat
  if v < 0x80 then [v]
  else if v < 0x800 then [0xC0 + v / 64, 0x80 + v % 64]
  else if v < 0x10000 then
    [0xE0 + v / 4096, 0x80 + v / 64 % 64, 0x80 + v % 64]
  else
    [0xF0 + v / 262144, 0x80 + v / 4096 % 64, 0x80 + v / 64 % 64,
     0x80 + v % 64]

/-- Models `new TextEncoder().encode(l)`. -/
def utf8Encode : Line → List Nat
  | [] => []
  | c :: cs => utf8EncodeChar c ++ utf8Encode cs

/-- The replacement character U+FFFD emitted by a non-fatal decoder. -/
def replChar : Char := Char.ofNat 0xFFFD

/-- Mid-sequence state of the WHATWG UTF-8 decoder: the partial code
point, the number of continuation bytes still needed, and the admissible
range for the next byte. -/
structure Utf8St where
  cp : Nat
  needed : Nat
  lo : Nat
  hi : Nat
deriving DecidableEq, Repr

/-- WHATWG UTF-8 decoder, handling a byte in the start state: emit an
ASCII scalar, enter a multi-byte sequence, or emit U+FFFD on an invalid
lead byte. -/
def utf8Start (b : Nat) : List Char × Option Utf8St :=
  if b ≤ 0x7F then ([Char.ofNat b], none)
  else if 0xC2 ≤ b ∧ b ≤ 0xDF then ([], some ⟨b - 0xC0, 1, 0x80, 0xBF⟩)
  else if 0xE0 ≤ b ∧ b ≤ 0xEF then
    ([], some ⟨b - 0xE0, 2, if b = 0xE0 then 0xA0 else 0x80,
               if b = 0xED then 0x9F else 0xBF⟩)
  else if 0xF0 ≤ b ∧ b ≤ 0xF4 then
    ([], some ⟨b - 0xF0, 3, if b = 0xF0 then 0x90 else 0x80,
               if b = 0xF4 then 0x8F else 0xBF⟩)
  else ([replChar], none)

/-- WHATWG UTF-8 decoder loop with `fatal: false`: errors emit U+FFFD; a
byte outside the admissible continuation range is reprocessed as a lead
byte; an incomplete sequence at end of stream emits one U+FFFD. -/
def utf8DecodeGo : Option Utf8St → List Nat → List Char
  | none, [] => []
  | some _, [] => [replChar]
  | none, b :: bs =>
    let s := utf8Start b
    s.1 ++ utf8DecodeGo s.2 bs
  | some st, b :: bs =>
    if st.lo ≤ b ∧ b ≤ st.hi then
      let cp := st.cp * 64 + (b - 0x80)
      if st.needed = 1 then Char.ofNat cp :: utf8DecodeGo none bs
      else utf8DecodeGo (some ⟨cp, st.needed - 1, 0x80, 0xBF⟩) bs
    else
      replChar :: (let s := utf8Start b; s.1 ++ utf8DecodeGo s.2 bs)

/-- Models `new TextDecoder('utf8', { fatal: false }).decode(bs)`. -/
def utf8Decode (bs : List Nat) : Line := utf8DecodeGo none bs

/-!
## Truncation (`truncateLogs`) and the full pipeline (`processLogs`)
-/

/-- Result record of `truncateLogs`. -/
structure TruncResult where
  logs : Line
  truncated : Bool
  originalSize : Nat
deriving DecidableEq, Repr

/-- `truncateLogs`: optionally cut to the first `maxLines` lines, then, if
the byte length still exceeds `maxBytes`, cut the UTF-8 encoding to
`maxBytes` bytes and decode it non-fatally. -/
def truncateLogs (logs : Line) (maxBytes : Nat) (maxLines : Option Nat) :
    TruncResult :=
  let originalSize := utf8ByteLen logs
  let lineCut : Line × Bool :=
    match maxLines with
    | some m =>
      let lines := splitLines logs
      if m < lines.length then (joinLines (lines.take m), true)
      else (logs, false)
    | none => (logs, false)
  if maxBytes < utf8ByteLen lineCut.1 then
    ⟨utf8Decode ((utf8Encode lineCut.1).take maxBytes), true, originalSize⟩
  else ⟨lineCut.1, lineCut.2, originalSize⟩

/-- The filter options record (`LogFilterOptions`); absent fields are
`none`, and a present field may still be falsy in JavaScript (empty grep
pattern, zero byte cap), which the pipeline models faithfully. -/
structure LogFilterOptions where
  severityFilter : Option Severity := none
  grep : Option Line := none
  maxBytes : Option Nat := none
  maxLines : Option Nat := none

/-- `Number.MAX_SAFE_INTEGER`. -/
def maxSafeInteger : Nat := 2 ^ 53 - 1

/-- Metadata record returned by `processLogs`. -/
structure ProcessMeta where
  truncated : Bool
  originalSize : Nat
deriving DecidableEq, Repr

/-- Result record of `processLogs`. -/
structure ProcessResult where
  logs : Line
  metadata : ProcessMeta
deriving DecidableEq, Repr

/-- `processLogs`: severity filter (if requested), then grep filter (if
requested — a thrown invalid-pattern error propagates), then truncation
with `options.maxBytes || Number.MAX_SAFE_INTEGER` and `options.maxLines`. -/
def processLogs (E : RegexEngine) (logs : Line) (o : LogFilterOptions) :
    Except Line ProcessResult :=
  let s1 : Line :=
    match o.severityFilter with
    | some f => filterBySeverity logs f
    | none => logs
  let s2 : Except Line Line :=
    match o.grep with
    | some p => if p.isEmpty then .ok s1 else grepLogs E s1 p
    | none => .ok s1
  match s2 with
  | .error e => .error e
  | .ok t =>
    let effMaxBytes : Nat :=
      match o.maxBytes with
      | some n => if n = 0 then maxSafeInteger else n
      | none => maxSafeInteger
    let tr := truncateLogs t effMaxBytes o.maxLines
    .ok ⟨tr.logs, ⟨tr.truncated, tr.originalSize⟩⟩

/-!
## Mutation safety gate (audit module)
-/

/-- The audit action kinds. -/
inductive AuditAction where
  | create
  | update
  | delete
  | scale
  | restart
  | get
  | list
deriving DecidableEq, BEq, Repr

/-- Printable name of an action kind (the TypeScript union literal). -/
def actionName : AuditAction → Line
  | .create => "create".toList
  | .update => "update".toList
  | .delete => "delete".toList
  | .scale => "scale".toList
  | .restart => "restart".toList
  | .get => "get".toList
  | .list => "list".toList

/-- Outcome tag of an audit entry. -/
inductive AuditResult where
  | success
  | failure
  | dryRun
deriving DecidableEq, Repr

/-- An audit entry before time-stamping (`Omit<AuditEntry, 'timestamp'>`).
The input echo is modelled as key-value text pairs. -/
structure AuditEntryData where
  action : AuditAction
  resource : Line
  name : Line
  nspace : Option Line
  input : List (Line × Line)
  result : AuditResult
  errMsg : Option Line := none
  dryRun : Bool
deriving DecidableEq, Repr

/-- A time-stamped audit entry as stored in the session ledger. -/
structure AuditEntry where
  timestamp : Line
  action : AuditAction
  resource : Line
  name : Line
  nspace : Option Line
  input : List (Line × Line)
  result : AuditResult
  errMsg : Option Line
  dryRun : Bool
deriving DecidableEq, Repr

/-- The audit configuration record. -/
structure AuditConfig where
  enabled : Bool
  logToConsole : Bool
  requireConfirmation : Bool
  confirmationRequired : List AuditAction
deriving DecidableEq, Repr

/-- The module's initial configuration. -/
def defaultAuditConfig : AuditConfig :=
  ⟨true, false, true, [.delete, .update, .scale]⟩

/-- The audit module's mutable state: global dry-run flag, configuration,
and the in-memory session ledger. -/
structure AuditState where
  dryRunMode : Bool
  config : AuditConfig
  sessionLog : List AuditEntry
deriving DecidableEq, Repr

/-- `requiresConfirmation`: the global switch is on and the action kind is
in the confirmation-required set. -/
def requiresConfirmation (cfg : AuditConfig) (action : AuditAction) : Bool :=
  cfg.requireConfirmation && cfg.confirmationRequired.contains action

/-- Result record of `validateConfirmation`. -/
structure ValidationResult where
  valid : Bool
  errMsg : Option Line
deriving DecidableEq, Repr

/-- The apostrophe character, used in the confirmation error message. -/
def apos : Char := Char.ofNat 39

/-- The explanatory message returned on a rejected confirmation. -/
def confirmationErrorMsg (action : AuditAction) : Line :=
  "Action ".toList ++ [apos] ++ actionName action ++ [apos] ++
  " requires confirmation. Set confirm=true to proceed, or use dryRun=true to preview changes.".toList

/-- `validateConfirmation(action, confirmed, dryRun)`: per-call or global
dry-run bypasses the check; otherwise a confirmation-requiring action with
a non-true `confirmed` is rejected with the explanatory message. -/
def validateConfirmation (st : AuditState) (action : AuditAction)
    (confirmed dryRun : Option Bool) : ValidationResult :=
  if dryRun.getD false || st.dryRunMode then ⟨true, none⟩
  else if requiresConfirmation st.config action && !confirmed.getD false then
    ⟨false, some (confirmationErrorMsg action)⟩
  else ⟨true, none⟩

/-- Time-stamp an entry (`{ ...entry, timestamp: new Date().toISOString() }`). -/
def stampEntry (e : AuditEntryData) (now : Line) : AuditEntry :=
  ⟨now, e.action, e.resource, e.name, e.nspace, e.input, e.result,
   e.errMsg, e.dryRun⟩

/-- Printable name of an audit result tag. -/
def resultName : AuditResult → Line
  | .success => "success".toList
  | .failure => "failure".toList
  | .dryRun => "dry-run".toList

/-- The one-line console diagnostic emitted when `logToConsole` is on. -/
def auditConsoleLine (e : AuditEntry) : Line :=
  "[AUDIT] ".toList ++ upperLine (actionName e.action) ++ " ".toList ++
  e.resource ++ "/".toList ++ e.name ++ " - ".toList ++ resultName e.result

/-- `logAudit`: stamp the entry, push it onto the session ledger, and emit
a console diagnostic iff `logToConsole` is set.  Returns the new state and
the emitted diagnostics. -/
def logAudit (st : AuditState) (e : AuditEntryData) (now : Line) :
    AuditState × List Line :=
  let full := stampEntry e now
  let st' : AuditState := ⟨st.dryRunMode, st.config, st.sessionLog ++ [full]⟩
  if st.config.logToConsole then (st', [auditConsoleLine full]) else (st', [])

/-- Outcome of a `deletePod` call, with the preview/success bodies kept
abstract (no claim inspects them). -/
inductive DeleteOutcome where
  | rejected (msg : Line)
  | dryRunPreview
  | deleted
deriving DecidableEq, Repr

/-- The gate protocol of `deletePod` (consolidated pods tool): validate
confirmation and return the rejection text as a plain value; else under
effective dry-run log a `dry-run` entry and return the preview; else
perform the external deletion (`api = none` models success, `api = some
err` a thrown error that propagates before any audit logging) and log a
`success` entry. -/
def deletePodModel (st : AuditState) (name nspace : Line)
    (dryRun confirm : Option Bool) (now : Line) (api : Option Line) :
    Except Line DeleteOutcome × AuditState :=
  let v := validateConfirmation st .delete confirm dryRun
  if !v.valid then (.ok (.rejected (v.errMsg.getD [])), st)
  else if dryRun.getD false || st.dryRunMode then
    let st' := (logAudit st
      ⟨.delete, "pod".toList, name, some nspace, [], .dryRun, none, true⟩
      now).1
    (.ok .dryRunPreview, st')
  else
    match api with
    | some err => (.error err, st)
    | none =>
      let st' := (logAudit st
        ⟨.delete, "pod".toList, name, some nspace, [], .success, none, false⟩
        now).1
      (.ok .deleted, st')

/-!
## Structural uniformity detector and adaptive encoder (formatter module)
-/

/-- A JavaScript value as seen by the formatter.  Object fields are the
own enumerable entries in insertion order; JavaScript guarantees the keys
are pairwise distinct. -/
inductive JSValue where
  | jnull
  | jundef
  | jbool (b : Bool)
  | jnum (n : Int)
  | jstr (s : Line)
  | jarr (elems : List JSValue)
  | jobj (fields : List (Line × JSValue))

/-- `typeof item === 'object' && item !== null && !Array.isArray(item)`. -/
def isObjVal : JSValue → Bool
  | .jobj _ => true
  | _ => false

/-- The primitive-value test used on field values: `null`, `undefined`,
string, number or boolean. -/
def isPrimitiveVal : JSValue → Bool
  | .jnull => true
  | .jundef => true
  | .jbool _ => true
  | .jnum _ => true
  | .jstr _ => true
  | _ => false

/-- Lexicographic comparison of two strings by scalar value, as the
default `Array.prototype.sort` comparator orders key strings. -/
def lineLe : Line → Line → Bool
  | [], _ => true
  | _ :: _, [] => false
  | a :: as', b :: bs' =>
    if a.toNat < b.toNat then true
    else if b.toNat < a.toNat then false
    else lineLe as' bs'

/-- Insert into a `lineLe`-sorted list, after all entries that compare
less-or-equal. -/
def insertSortedLine (x : Line) : List Line → List Line
  | [] => [x]
  | y :: ys => if lineLe y x then y :: insertSortedLine x ys else x :: y :: ys

/-- Models `keys.sort()` (default string comparator). -/
def sortLines (ls : List Line) : List Line :=
  ls.foldl (fun acc x => insertSortedLine x acc) []

/-- The fields of an object value (empty for non-objects). -/
def objFields : JSValue → List (Line × JSValue)
  | .jobj fs => fs
  | _ => []

/-- `Object.keys(v).sort()`. -/
def sortedKeys (v : JSValue) : List Line :=
  sortLines ((objFields v).map Prod.fst)

/-- `isUniformArray`: non-empty array, all elements non-null non-array
objects, the first element has a non-empty key set, and every element has
the same sorted keys as the first and only primitive field values. -/
def isUniformArray (v : JSValue) : Bool :=
  match v with
  | .jarr [] => false
  | .jarr (e :: es) =>
    if (e :: es).all isObjVal then
      let firstKeys := sortedKeys e
      if firstKeys.isEmpty then false
      else
        (e :: es).all fun item =>
          sortedKeys item == firstKeys &&
            (objFields item).all fun kv => isPrimitiveVal kv.2
    else false
  | _ => false

/-- `shouldUseToon`: a uniform array, or a non-array object at least one
of whose direct property values is a uniform array. -/
def shouldUseToon (v : JSValue) : Bool :=
  if isUniformArray v then true
  else
    match v with
    | .jobj fs => fs.any fun kv => isUniformArray kv.2
    | _ => false

/-- Requested response format. -/
inductive ResponseFormat where
  | json
  | toon
  | auto
deriving DecidableEq, Repr

/-- The two concrete renderers, kept abstract: `js` models
`JSON.stringify(·, null, 2)` and `toToon` models
`encode(·, { delimiter: '\t' })`, with `none` for a thrown encoding
error. -/
structure Encoders where
  js : JSValue → Line
  toToon : JSValue → Option Line

/-- `formatResponse`: strings are returned verbatim; `null`/`undefined`
and other primitives always go through the verbose renderer; objects and
arrays choose the compact renderer per the preference (`auto` consults
`shouldUseToon`), falling back to the verbose renderer if the compact
encoding throws. -/
def formatResponse (Enc : Encoders) (data : JSValue)
    (format : ResponseFormat) : Line :=
  match data with
  | .jnull => Enc.js .jnull
  | .jundef => Enc.js .jundef
  | .jstr s => s
  | .jbool b => Enc.js (.jbool b)
  | .jnum n => Enc.js (.jnum n)
  | _ =>
    let useToon : Bool :=
      match format with
      | .toon => true
      | .auto => shouldUseToon data
      | .json => false
    if useToon then
      match Enc.toToon data with
      | some t => t
      | none => Enc.js data
    else Enc.js data

/-!
## Log summarizer (`summarizeLogs`, `extractErrorPatterns`)

The four normalisation regex replaces (timestamps, UUIDs, IPv4 addresses,
five-or-more-digit runs) and the timestamp scan are kept abstract.
-/

/-- Abstract helpers of the summarizer: `normalize` models the composed
placeholder substitutions and `findTimestamp` the ISO-8601-ish match. -/
structure LogAux where
  normalize : Line → Line
  findTimestamp : Line → Option Line

/-- The grouping key of an error line: its normalisation capped at 200
characters (`.substring(0, 200)`). -/
def patternKey (A : LogAux) (line : Line) : Line :=
  (A.normalize line).take 200

/-- Append a sample under its key in an insertion-ordered association
list, adding a new group at the end on first sight of the key. -/
def addSample (m : List (Line × List Line)) (k : Line) (v : Line) :
    List (Line × List Line) :=
  match m with
  | [] => [(k, [v])]
  | (k', vs) :: rest =>
    if k' = k then (k', vs ++ [v]) :: rest
    else (k', vs) :: addSample rest k v

/-- `extractErrorPatterns`: group the ERROR-classified lines by normalised
pattern, keys in first-seen order, samples in original order. -/
def extractErrorPatterns (A : LogAux) (lines : List Line) :
    List (Line × List Line) :=
  lines.foldl
    (fun m line =>
      if detectSeverity line = .ERROR then addSample m (patternKey A line) line
      else m)
    []

/-- One `topErrors` entry. -/
structure TopError where
  pattern : Line
  count : Nat
  sample : Line
deriving DecidableEq, Repr

/-- Insert into a list sorted by descending count, after every entry with
a greater-or-equal count; this realises the stable sort of
`.sort((a, b) => b.count - a.count)`. -/
def insertByCount (x : TopError) : List TopError → List TopError
  | [] => [x]
  | y :: ys => if x.count ≤ y.count then y :: insertByCount x ys else x :: y :: ys

/-- Stable sort by descending count. -/
def sortByCountDesc (l : List TopError) : List TopError :=
  l.foldl (fun acc x => insertByCount x acc) []

/-- The six severity counters. -/
structure SevCounts where
  error : Nat
  warn : Nat
  info : Nat
  debug : Nat
  trace : Nat
  unknown : Nat
deriving DecidableEq, Repr

/-- Zero-filled counters. -/
def zeroCounts : SevCounts := ⟨0, 0, 0, 0, 0, 0⟩

/-- Read one tier's counter. -/
def countsGet (c : SevCounts) : Severity → Nat
  | .ERROR => c.error
  | .WARN => c.warn
  | .INFO => c.info
  | .DEBUG => c.debug
  | .TRACE => c.trace
  | .UNKNOWN => c.unknown

/-- `severityCounts[severity]++`. -/
def bumpCount (c : SevCounts) : Severity → SevCounts
  | .ERROR => ⟨c.error + 1, c.warn, c.info, c.debug, c.trace, c.unknown⟩
  | .WARN => ⟨c.error, c.warn + 1, c.info, c.debug, c.trace, c.unknown⟩
  | .INFO => ⟨c.error, c.warn, c.info + 1, c.debug, c.trace, c.unknown⟩
  | .DEBUG => ⟨c.error, c.warn, c.info, c.debug + 1, c.trace, c.unknown⟩
  | .TRACE => ⟨c.error, c.warn, c.info, c.debug, c.trace + 1, c.unknown⟩
  | .UNKNOWN => ⟨c.error, c.warn, c.info, c.debug, c.trace, c.unknown + 1⟩

/-- Accumulator of the summarizer's single pass over the lines. -/
structure ScanAcc where
  counts : SevCounts
  errors : List Line
  earliest : Option Line
  latest : Option Line
deriving Repr

/-- One step of the pass: bump the tier counter, collect ERROR lines, and
track the first/last timestamp matches. -/
def scanLine (A : LogAux) (acc : ScanAcc) (line : Line) : ScanAcc :=
  let sev := detectSeverity line
  let counts := bumpCount acc.counts sev
  let errors := if sev = .ERROR then acc.errors ++ [line] else acc.errors
  match A.findTimestamp line with
  | some ts =>
    ⟨counts, errors,
     (match acc.earliest with | none => some ts | some e => some e), some ts⟩
  | none => ⟨counts, errors, acc.earliest, acc.latest⟩

/-- The summary record. -/
structure LogSummary where
  totalLines : Nat
  estimatedBytes : Nat
  earliest : Option Line
  latest : Option Line
  severityCounts : SevCounts
  topErrors : List TopError
  recentErrors : List Line

/-- `summarizeLogs`: scan the non-blank lines, group the collected error
lines, rank the groups, and keep the last five raw errors. -/
def summarizeLogs (A : LogAux) (logs : Line) : LogSummary :=
  let lines := (splitLines logs).filter fun l => !trimEmpty l
  let acc := lines.foldl (scanLine A) ⟨zeroCounts, [], none, none⟩
  let groups := extractErrorPatterns A acc.errors
  let mapped : List TopError :=
    groups.map fun g => ⟨g.1, g.2.length, g.2.headD []⟩
  let topErrors := (sortByCountDesc mapped).take 5
  let recentErrors := acc.errors.drop (acc.errors.length - 5)
  ⟨lines.length, utf8ByteLen logs, acc.earliest, acc.latest, acc.counts,
   topErrors, recentErrors⟩

/-!
## General lemmas about the string model
-/

theorem startsWithL_mem {l sub : Line} (h : startsWithL l sub = true) :
    ∀ k ∈ sub, k ∈ l := by
  induction l generalizing sub with
  | nil =>
    cases sub with
    | nil => simp
    | cons d ds => simp [startsWithL] at h
  | cons c cs ih =>
    cases sub with
    | nil => simp
    | cons d ds =>
      simp only [startsWithL, Bool.and_eq_true, beq_iff_eq] at h
      intro k hk
      rcases List.mem_cons.mp hk with rfl | hk
      · rw [← h.1]; exact List.mem_cons_self c cs
      · exact List.mem_cons_of_mem _ (ih h.2 k hk)

theorem containsStr_mem {l sub : Line} (h : containsStr l sub = true) :
    ∀ k ∈ sub, k ∈ l := by
  induction l with
  | nil =>
    cases sub with
    | nil => simp
    | cons d ds => simp [containsStr] at h
  | cons c cs ih =>
    simp only [containsStr, Bool.or_eq_true] at h
    rcases h with h | h
    · exact startsWithL_mem h
    · intro k hk; exact List.mem_cons_of_mem _ (ih h k hk)

theorem isJsWhitespace_toUpper {c : Char} (h : isJsWhitespace c = true) :
    c.toUpper = c := by
  have hn : c.toNat < 97 ∨ 122 < c.toNat := by
    unfold isJsWhitespace at h
    simp only [Bool.or_eq_true, Bool.and_eq_true, decide_eq_true_eq] at h
    rcases h with ((((((((((((((h|h)|h)|h)|h)|h)|h)|h)|h)|⟨h1,h2⟩)|h)|h)|h)|h)|h)
    all_goals try (rw [h]; decide)
    have a : (8192 : Nat) ≤ c.toNat := h1
    omega
  unfold Char.toUpper
  rw [if_neg]
  omega

theorem trimEmpty_detectSeverity {l : Line} (h : trimEmpty l = true) :
    detectSeverity l = .UNKNOWN := by
  have hup : ∀ k ∈ upperLine l, isJsWhitespace k = true := by
    intro k hk
    simp only [upperLine, List.mem_map] at hk
    obtain ⟨c, hc, rfl⟩ := hk
    have hcw : isJsWhitespace c = true := by
      have := (List.all_eq_true.mp h) c hc
      simpa using this
    rw [isJsWhitespace_toUpper hcw]
    exact hcw
  have noKw : ∀ sub : Line, sub.all isJsWhitespace = false →
      containsStr (upperLine l) sub = false := by
    intro sub hsub
    cases hcs : containsStr (upperLine l) sub with
    | false => rfl
    | true =>
      exfalso
      have hall : sub.all isJsWhitespace = true := by
        rw [List.all_eq_true]
        intro k hk
        exact hup k (containsStr_mem hcs k hk)
      rw [hall] at hsub
      simp at hsub
  have e1 : hasErrorKw (upperLine l) = false := by
    unfold hasErrorKw
    rw [noKw "ERROR".toList (by decide), noKw "FATAL".toList (by decide),
        noKw "SEVERE".toList (by decide),
        noKw "\"LEVEL\":\"ERROR\"".toList (by decide),
        noKw "LEVEL=ERROR".toList (by decide)]
    decide
  have e2 : hasWarnKw (upperLine l) = false := by
    unfold hasWarnKw
    rw [noKw "WARN".toList (by decide), noKw "WARNING".toList (by decide),
        noKw "\"LEVEL\":\"WARN\"".toList (by decide),
        noKw "LEVEL=WARN".toList (by decide)]
    decide
  have e3 : hasDebugKw (upperLine l) = false := by
    unfold hasDebugKw
    rw [noKw "DEBUG".toList (by decide),
        noKw "\"LEVEL\":\"DEBUG\"".toList (by decide),
        noKw "LEVEL=DEBUG".toList (by decide)]
    decide
  have e4 : hasTraceKw (upperLine l) = false := by
    unfold hasTraceKw
    rw [noKw "TRACE".toList (by decide),
        noKw "\"LEVEL\":\"TRACE\"".toList (by decide),
        noKw "LEVEL=TRACE".toList (by decide)]
    decide
  have e5 : hasInfoKw (upperLine l) = false := by
    unfold hasInfoKw
    rw [noKw "INFO".toList (by decide),
        noKw "\"LEVEL\":\"INFO\"".toList (by decide),
        noKw "LEVEL=INFO".toList (by decide)]
    decide
  simp [detectSeverity, e1, e2, e3, e4, e5]

theorem splitLines_no_newline {l : Line} (h : '\n' ∉ l) : splitLines l = [l] := by
  induction l with
  | nil => rfl
  | cons c cs ih =>
    have hc : ¬c = '\n' := fun hc => h (hc ▸ List.mem_cons_self c cs)
    have hcs : '\n' ∉ cs := fun hm => h (List.mem_cons_of_mem _ hm)
    simp only [splitLines, if_neg hc, ih hcs]

/-!
## Claim theorems: severity filtering (C2, C3)
-/

/-- C3: for every log text and floor tier `T ≠ UNKNOWN` (the five caller
tiers), `filterBySeverity` returns exactly the non-empty lines whose
detected tier has filtering-priority at most `T`'s, in original order,
and excludes every other line. -/
theorem filterBySeverity_keeps_exactly (logs : Line) (floor : Severity)
    (h : floor ≠ .UNKNOWN) :
    filterBySeverity logs floor =
      joinLines ((splitLines logs).filter fun l =>
        !l.isEmpty &&
          severityPriority (detectSeverity l) ≤ severityPriority floor) := by
  unfold filterBySeverity
  congr 1
  apply List.filter_congr
  intro l _
  unfold keepLine
  cases ht : trimEmpty l with
  | true =>
    have hdet := trimEmpty_detectSeverity ht
    rw [hdet]
    have hf : severityPriority floor < 5 := by
      cases floor <;> simp_all [severityPriority]
    simp only [Bool.not_true, Bool.false_and]
    have : decide (severityPriority Severity.UNKNOWN ≤ severityPriority floor)
        = false := by
      simp only [decide_eq_false_iff_not, not_le]
      exact hf
    rw [this, Bool.and_false]
  | false =>
    have hne : l ≠ [] := by
      rintro rfl
      simp [trimEmpty] at ht
    have hie : l.isEmpty = false := by
      simpa using hne
    simp [ht, hie]

/-- Witness for C3 at a concrete log and floor. -/
theorem filterBySeverity_keeps_exactly_witness :
    filterBySeverity "ERROR a\ninfo b\nDEBUG c".toList .INFO =
      joinLines ((splitLines "ERROR a\ninfo b\nDEBUG c".toList).filter fun l =>
        !l.isEmpty &&
          severityPriority (detectSeverity l) ≤
            severityPriority Severity.INFO) :=
  filterBySeverity_keeps_exactly _ _ (by decide)

/-- C2, counterexample: the line `"ERROR DEBUG INFO"` contains both the
substring `DEBUG` and the substring `INFO`, yet `detectSeverity` classifies
it `ERROR` (not `DEBUG`), and `filterBySeverity` with floor `INFO` keeps it
rather than excluding it. -/
theorem detectSeverity_debug_info_counterexample :
    containsStr "ERROR DEBUG INFO".toList "DEBUG".toList = true ∧
    containsStr "ERROR DEBUG INFO".toList "INFO".toList = true ∧
    detectSeverity "ERROR DEBUG INFO".toList = .ERROR ∧
    detectSeverity "ERROR DEBUG INFO".toList ≠ .DEBUG ∧
    filterBySeverity "ERROR DEBUG INFO".toList .INFO =
      "ERROR DEBUG INFO".toList := by decide

/-- C2 as amended: the classifier tests ERROR-family, WARN-family, DEBUG,
TRACE, INFO in that order with first match winning; consequently a line
carrying both the DEBUG and the INFO keyword, and no ERROR-family or
WARN-family keyword, is classified `DEBUG` and is excluded by
`filterBySeverity` with floor `INFO` even though it carries an INFO
keyword. -/
theorem detectSeverity_debug_info_amended (l : Line)
    (hD : hasDebugKw (upperLine l) = true)
    (hI : hasInfoKw (upperLine l) = true)
    (hE : hasErrorKw (upperLine l) = false)
    (hW : hasWarnKw (upperLine l) = false)
    (hn : '\n' ∉ l) :
    detectSeverity l = .DEBUG ∧
    severityPriority Severity.INFO < severityPriority (detectSeverity l) ∧
    keepLine .INFO l = false ∧
    filterBySeverity l .INFO = [] := by
  have hdet : detectSeverity l = .DEBUG := by
    simp [detectSeverity, hE, hW, hD]
  have hkeep : keepLine .INFO l = false := by
    unfold keepLine
    rw [hdet]
    have : decide (severityPriority Severity.DEBUG ≤
        severityPriority Severity.INFO) = false := by decide
    rw [this, Bool.and_false]
  refine ⟨hdet, by rw [hdet]; decide, hkeep, ?_⟩
  unfold filterBySeverity
  rw [splitLines_no_newline hn]
  simp [hkeep, joinLines]

/-- Witness for the amended C2 at a concrete line. -/
theorem detectSeverity_debug_info_amended_witness :
    detectSeverity "x debug info".toList = .DEBUG ∧
    severityPriority Severity.INFO <
      severityPriority (detectSeverity "x debug info".toList) ∧
    keepLine .INFO "x debug info".toList = false ∧
    filterBySeverity "x debug info".toList .INFO = [] :=
  detectSeverity_debug_info_amended _ (by decide) (by decide) (by decide)
    (by decide) (by decide)

/-!
## Claim theorems: mutation safety gate (C1, C10)
-/

/-- C1: `validateConfirmation` is valid whenever the per-call or global
dry-run flag is on; otherwise it is invalid exactly when the action
requires confirmation and `confirmed` is not `true`, and an invalid result
carries the explanatory message; a rejected validation is returned by the
`deletePod` gate as a plain value with the audit ledger (indeed the whole
audit state) unchanged. -/
theorem validateConfirmation_spec (st : AuditState) (action : AuditAction)
    (confirmed dryRun : Option Bool) :
    ((dryRun.getD false || st.dryRunMode) = true →
      validateConfirmation st action confirmed dryRun = ⟨true, none⟩) ∧
    ((dryRun.getD false || st.dryRunMode) = false →
      ((validateConfirmation st action confirmed dryRun).valid = false ↔
        (requiresConfirmation st.config action = true ∧
          confirmed ≠ some true))) ∧
    ((validateConfirmation st action confirmed dryRun).valid = false →
      (validateConfirmation st action confirmed dryRun).errMsg =
        some (confirmationErrorMsg action)) ∧
    (∀ name nspace now api,
      (validateConfirmation st .delete confirmed dryRun).valid = false →
      deletePodModel st name nspace dryRun confirmed now api =
        (.ok (.rejected (confirmationErrorMsg .delete)), st)) := by
  have hconf : (!confirmed.getD false) = true ↔ confirmed ≠ some true := by
    cases confirmed with
    | none => simp
    | some b => cases b <;> simp
  by_cases hdr : (dryRun.getD false || st.dryRunMode) = true
  case pos =>
    have hval : ∀ a : AuditAction,
        validateConfirmation st a confirmed dryRun = ⟨true, none⟩ := by
      intro a
      unfold validateConfirmation
      rw [hdr]
      simp
    refine ⟨fun _ => hval action, fun hf => absurd hdr (by simp [hf]),
      ?_, ?_⟩
    · rw [hval action]
      intro h
      simp at h
    · intro name nspace now api hinv
      rw [hval .delete] at hinv
      simp at hinv
  case neg =>
    rw [Bool.not_eq_true] at hdr
    have hgen : ∀ a : AuditAction,
        validateConfirmation st a confirmed dryRun =
          if requiresConfirmation st.config a && !confirmed.getD false then
            ⟨false, some (confirmationErrorMsg a)⟩
          else ⟨true, none⟩ := by
      intro a
      unfold validateConfirmation
      rw [hdr]
      simp
    refine ⟨fun h => absurd h (by simp [hdr]), fun _ => ?_, ?_, ?_⟩
    · rw [hgen action]
      cases hrc : requiresConfirmation st.config action &&
          !confirmed.getD false with
      | true =>
        simp only [Bool.and_eq_true] at hrc
        simp [hrc.1, hconf.mp hrc.2]
      | false =>
        simp only [if_neg (by simp : ¬false = true)]
        constructor
        · intro h
          simp at h
        · rintro ⟨h1, h2⟩
          rw [h1, hconf.mpr h2] at hrc
          simp at hrc
    · rw [hgen action]
      cases hrc : requiresConfirmation st.config action &&
          !confirmed.getD false with
      | true => intro _; rfl
      | false => intro h; simp at h
    · intro name nspace now api hinv
      rw [hgen .delete] at hinv
      cases hrc : requiresConfirmation st.config .delete &&
          !confirmed.getD false with
      | false => rw [hrc] at hinv; simp at hinv
      | true =>
        simp only [deletePodModel, hgen .delete, hrc, if_true]
        simp

/-- The audit module's initial state: dry-run off, default configuration,
empty session ledger. -/
def auditState0 : AuditState := ⟨false, defaultAuditConfig, []⟩

/-- Witness for C1: with the default configuration, an unconfirmed
non-dry-run delete is rejected and the `deletePod` gate returns the
message as a value, leaving the state untouched. -/
theorem validateConfirmation_spec_witness :
    (validateConfirmation auditState0 .delete none none).valid = false ∧
    deletePodModel auditState0 "p".toList "ns".toList none none
        "t".toList none =
      (.ok (.rejected (confirmationErrorMsg .delete)), auditState0) := by
  have h := validateConfirmation_spec auditState0 .delete none none
  have hv : (validateConfirmation auditState0 .delete none none).valid
      = false :=
    (h.2.1 (by decide)).mpr ⟨by decide, by simp⟩
  exact ⟨hv, h.2.2.2 _ _ _ _ hv⟩

/-- C10: `logAudit` appends the time-stamped entry to the session ledger
in every configuration state — the `enabled` flag has no effect on whether
the entry is recorded — and `logToConsole` changes only the diagnostic
output, never the ledger. -/
theorem logAudit_always_appends (st : AuditState) (e : AuditEntryData)
    (now : Line) :
    ((logAudit st e now).1.sessionLog =
      st.sessionLog ++ [stampEntry e now]) ∧
    ((logAudit st e now).1.dryRunMode = st.dryRunMode) ∧
    ((logAudit st e now).1.config = st.config) ∧
    (∀ enabled : Bool,
      (logAudit ⟨st.dryRunMode,
        ⟨enabled, st.config.logToConsole, st.config.requireConfirmation,
         st.config.confirmationRequired⟩, st.sessionLog⟩ e now).1.sessionLog =
      st.sessionLog ++ [stampEntry e now]) ∧
    ((logAudit st e now).2 = [] ↔ st.config.logToConsole = false) ∧
    (st.config.logToConsole = true →
      (logAudit st e now).2 = [auditConsoleLine (stampEntry e now)]) := by
  unfold logAudit
  cases hc : st.config.logToConsole with
  | true =>
    refine ⟨by simp, by simp, by simp, ?_, by simp, fun _ => by simp⟩
    intro enabled
    simp only
    split <;> simp
  | false =>
    refine ⟨by simp, by simp, by simp, ?_, by simp, fun h => by simp at h⟩
    intro enabled
    simp only
    split <;> simp

/-- A sample entry used by witnesses. -/
def entry0 : AuditEntryData :=
  ⟨.delete, "pod".toList, "p".toList, none, [], .success, none, false⟩

/-- Witness for C10: logging into the initial state (whose `enabled`
field could be anything) yields a one-entry ledger. -/
theorem logAudit_always_appends_witness :
    (logAudit auditState0 entry0 "t".toList).1.sessionLog =
      [stampEntry entry0 "t".toList] :=
  (logAudit_always_appends auditState0 entry0 "t".toList).1.trans
    (List.nil_append _)

/-!
## Claim theorems: uniformity detector and encoder (C7, C8)
-/

/-- Modelled from the claim's wording, for refinement comparison with
`isUniformArray`: a non-empty array, every element a non-null non-array
object, every element's sorted key set equal to the first element's, and
every field value primitive — with no requirement that the key set be
non-empty. -/
def claimUniformArray (v : JSValue) : Bool :=
  match v with
  | .jarr [] => false
  | .jarr (e :: es) =>
    (e :: es).all isObjVal &&
    (e :: es).all (fun item => sortedKeys item == sortedKeys e) &&
    (e :: es).all (fun item => (objFields item).all fun kv =>
      isPrimitiveVal kv.2)
  | _ => false

/-- C7, counterexample: the one-element array of an empty object satisfies
every condition of the claimed biconditional, yet `isUniformArray`
returns `false` on it (the code explicitly rejects an empty key set). -/
theorem isUniformArray_counterexample :
    claimUniformArray (.jarr [.jobj []]) = true ∧
    isUniformArray (.jarr [.jobj []]) = false := by decide

/-- C7 as amended: `isUniformArray` is the claimed biconditional
strengthened by the extra requirement that the first element's key set be
non-empty. -/
theorem isUniformArray_amended (v : JSValue) :
    isUniformArray v =
      (claimUniformArray v &&
        match v with
        | .jarr (e :: _) => !(sortedKeys e).isEmpty
        | _ => false) := by
  match v with
  | .jnull => rfl
  | .jundef => rfl
  | .jbool b => rfl
  | .jnum n => rfl
  | .jstr s => rfl
  | .jobj fs => rfl
  | .jarr [] => rfl
  | .jarr (e :: es) =>
    unfold isUniformArray claimUniformArray
    cases hobj : (e :: es).all isObjVal with
    | false => simp [hobj]
    | true =>
      cases hkeys : (sortedKeys e).isEmpty with
      | true => simp [hobj, hkeys]
      | false =>
        rw [Bool.eq_iff_iff]
        simp only [hobj, hkeys, Bool.false_eq_true, if_false, if_true,
          Bool.not_false, Bool.and_true, Bool.true_and, List.all_eq_true,
          Bool.and_eq_true, beq_iff_eq]
        constructor
        · intro h
          exact ⟨fun x hx => (h x hx).1, fun x hx => (h x hx).2⟩
        · intro h x hx
          exact ⟨h.1 x hx, h.2 x hx⟩

/-- C8: `formatResponse` returns strings verbatim; renders `null`,
`undefined` and other primitives through the verbose renderer regardless
of preference; `json` forces the verbose renderer on structured values;
and `auto` uses the compact renderer exactly when `shouldUseToon` holds
(whenever the compact encoding succeeds, per the documented fallback). -/
theorem formatResponse_spec (Enc : Encoders) (format : ResponseFormat) :
    (∀ s, formatResponse Enc (.jstr s) format = s) ∧
    (formatResponse Enc .jnull format = Enc.js .jnull) ∧
    (formatResponse Enc .jundef format = Enc.js .jundef) ∧
    (∀ b, formatResponse Enc (.jbool b) format = Enc.js (.jbool b)) ∧
    (∀ n, formatResponse Enc (.jnum n) format = Enc.js (.jnum n)) ∧
    (∀ es, formatResponse Enc (.jarr es) .json = Enc.js (.jarr es)) ∧
    (∀ fs, formatResponse Enc (.jobj fs) .json = Enc.js (.jobj fs)) ∧
    (∀ es t, Enc.toToon (.jarr es) = some t →
      formatResponse Enc (.jarr es) .auto =
        if shouldUseToon (.jarr es) then t else Enc.js (.jarr es)) ∧
    (∀ fs t, Enc.toToon (.jobj fs) = some t →
      formatResponse Enc (.jobj fs) .auto =
        if shouldUseToon (.jobj fs) then t else Enc.js (.jobj fs)) := by
  refine ⟨fun s => rfl, rfl, rfl, fun b => rfl, fun n => rfl,
    fun es => rfl, fun fs => rfl, ?_, ?_⟩
  · intro es t h
    simp only [formatResponse]
    cases hs : shouldUseToon (.jarr es) with
    | true => simp [hs, h]
    | false => simp [hs]
  · intro fs t h
    simp only [formatResponse]
    cases hs : shouldUseToon (.jobj fs) with
    | true => simp [hs, h]
    | false => simp [hs]

/-- Concrete renderers used by witnesses. -/
def demoEncoders : Encoders :=
  ⟨fun _ => "J".toList, fun _ => some "T".toList⟩

/-- Witness for C8: on a uniform record array, `auto` yields the compact
rendering; on a nested object it yields the verbose rendering. -/
theorem formatResponse_spec_witness :
    formatResponse demoEncoders
        (.jarr [.jobj [("a".toList, .jnum 1)]]) .auto = "T".toList ∧
    formatResponse demoEncoders
        (.jobj [("m".toList, .jobj [("n".toList, .jnum 1)])]) .auto =
      "J".toList := by
  constructor
  · have h := (formatResponse_spec demoEncoders .auto).2.2.2.2.2.2.2.1
      [.jobj [("a".toList, .jnum 1)]] "T".toList rfl
    exact h.trans (by decide)
  · have h := (formatResponse_spec demoEncoders .auto).2.2.2.2.2.2.2.2
      [("m".toList, .jobj [("n".toList, .jnum 1)])] "T".toList rfl
    exact h.trans (by decide)

/-!
## Claim theorems: grep filter (C9)
-/

/-- C9: `grepLogs` throws the descriptive invalid-pattern error exactly
when the pattern does not compile, and otherwise returns exactly the
matching lines (a sublist of the split lines, so in original order). -/
theorem grepLogs_spec (E : RegexEngine) (logs pattern : Line) :
    (E.compile pattern = none →
      grepLogs E logs pattern = .error (invalidPatternMsg pattern)) ∧
    (∀ test, E.compile pattern = some test →
      grepLogs E logs pattern =
        .ok (joinLines ((splitLines logs).filter test)) ∧
      ((splitLines logs).filter test).Sublist (splitLines logs) ∧
      (∀ l, l ∈ (splitLines logs).filter test ↔
        l ∈ splitLines logs ∧ test l = true)) := by
  constructor
  · intro h
    unfold grepLogs
    rw [h]
  · intro test h
    refine ⟨?_, List.filter_sublist _, fun l => List.mem_filter⟩
    unfold grepLogs
    rw [h]

/-- A concrete engine for witnesses: `"["` fails to compile (as in
JavaScript), any other pattern matches by case-insensitive substring. -/
def demoEngine : RegexEngine :=
  ⟨fun p =>
    if p = "[".toList then none
    else some fun l => containsStr (upperLine l) (upperLine p)⟩

/-- Witness for C9: a compilable pattern keeps exactly the matching line,
and the uncompilable pattern `"["` throws the descriptive error. -/
theorem grepLogs_spec_witness :
    grepLogs demoEngine "Hello\nhi".toList "hello".toList =
      .ok "Hello".toList ∧
    grepLogs demoEngine "Hello\nhi".toList "[".toList =
      .error (invalidPatternMsg "[".toList) := by
  constructor
  · have h := ((grepLogs_spec demoEngine "Hello\nhi".toList
      "hello".toList).2
      (fun l => containsStr (upperLine l) (upperLine "hello".toList))
      rfl).1
    exact h.trans (congrArg Except.ok (by decide))
  · exact (grepLogs_spec demoEngine "Hello\nhi".toList "[".toList).1 rfl

/-!
## Claim theorems: truncation (C4)

The byte-level cut is characterised declaratively: `utf8Take n s` is the
longest prefix of `s` whose UTF-8 encoding fits in `n` bytes, and
`utf8CutsMid n s` says the cut at `n` bytes falls strictly inside a
character's encoding.
-/

/-- Longest prefix whose UTF-8 encoding fits in `n` bytes. -/
def utf8Take (n : Nat) : Line → Line
  | [] => []
  | c :: cs =>
    if utf8CharLen c ≤ n then c :: utf8Take (n - utf8CharLen c) cs else []

/-- Whether a cut after `n` bytes falls strictly inside one character's
encoding. -/
def utf8CutsMid (n : Nat) : Line → Bool
  | [] => false
  | c :: cs =>
    if utf8CharLen c ≤ n then utf8CutsMid (n - utf8CharLen c) cs
    else decide (0 < n)

theorem utf8EncodeChar_length (c : Char) :
    (utf8EncodeChar c).length = utf8CharLen c := by
  unfold utf8EncodeChar utf8CharLen
  by_cases h1 : c.toNat < 0x80
  · simp [h1]
  · by_cases h2 : c.toNat < 0x800
    · simp [h1, h2]
    · by_cases h3 : c.toNat < 0x10000
      · simp [h1, h2, h3]
      · simp [h1, h2, h3]

theorem char_toNat_valid (c : Char) :
    c.toNat < 0xD800 ∨ (0xDFFF < c.toNat ∧ c.toNat < 0x110000) := by
  have h := c.valid
  simp [UInt32.isValidChar, Nat.isValidChar] at h
  simp [Char.toNat]
  omega

theorem utf8ByteLen_utf8Take (n : Nat) (l : Line) :
    utf8ByteLen (utf8Take n l) ≤ n := by
  induction l generalizing n with
  | nil => simp [utf8Take, utf8ByteLen]
  | cons c cs ih =>
    unfold utf8Take
    by_cases h : utf8CharLen c ≤ n
    · rw [if_pos h]
      have := ih (n - utf8CharLen c)
      simp only [utf8ByteLen, List.map_cons, List.sum_cons] at *
      omega
    · rw [if_neg h]
      simp [utf8ByteLen]

theorem utf8Start_ascii (v : Nat) (h : v < 0x80) :
    utf8Start v = ([Char.ofNat v], none) := by
  unfold utf8Start
  rw [if_pos (by omega)]

theorem utf8_decode_one (v : Nat) (h : v < 0x80) (bs : List Nat) :
    utf8DecodeGo none (v :: bs) = Char.ofNat v :: utf8DecodeGo none bs := by
  simp [utf8DecodeGo, utf8Start_ascii v h]

theorem utf8Start_two (v : Nat) (h1 : 0x80 ≤ v) (h2 : v < 0x800) :
    utf8Start (0xC0 + v / 64) = ([], some ⟨v / 64, 1, 0x80, 0xBF⟩) := by
  unfold utf8Start
  rw [if_neg (by omega), if_pos (by omega)]
  have h : 0xC0 + v / 64 - 0xC0 = v / 64 := by omega
  rw [h]

theorem utf8_decode_two (v : Nat) (h1 : 0x80 ≤ v) (h2 : v < 0x800)
    (bs : List Nat) :
    utf8DecodeGo none ((0xC0 + v / 64) :: (0x80 + v % 64) :: bs) =
      Char.ofNat v :: utf8DecodeGo none bs ∧
    utf8DecodeGo none [0xC0 + v / 64] = [replChar] := by
  constructor
  · simp only [utf8DecodeGo, utf8Start_two v h1 h2, List.nil_append]
    rw [if_pos (by omega : (0x80:Nat) ≤ 0x80 + v % 64 ∧ 0x80 + v % 64 ≤ 0xBF)]
    rw [show v / 64 * 64 + (0x80 + v % 64 - 0x80) = v from by omega]
    simp
  · simp [utf8DecodeGo, utf8Start_two v h1 h2]

theorem utf8Start_three (v : Nat) (h1 : 0x800 ≤ v) (h2 : v < 0x10000)
    (hs : v < 0xD800 ∨ 0xDFFF < v) :
    ∃ lo hi : Nat,
      utf8Start (0xE0 + v / 4096) = ([], some ⟨v / 4096, 2, lo, hi⟩) ∧
      lo ≤ 0x80 + v / 64 % 64 ∧ 0x80 + v / 64 % 64 ≤ hi := by
  by_cases hE0 : v < 0x1000
  · refine ⟨0xA0, 0xBF, ?_, by omega, by omega⟩
    rw [show 0xE0 + v / 4096 = 0xE0 from by omega,
        show v / 4096 = 0 from by omega]
    decide
  · by_cases hED : 0xD000 ≤ v ∧ v < 0xE000
    · refine ⟨0x80, 0x9F, ?_, by omega, by omega⟩
      rw [show 0xE0 + v / 4096 = 0xED from by omega,
          show v / 4096 = 13 from by omega]
      decide
    · refine ⟨0x80, 0xBF, ?_, by omega, by omega⟩
      unfold utf8Start
      rw [if_neg (by omega), if_neg (by omega), if_pos (by omega),
          if_neg (by omega), if_neg (by omega),
          show 0xE0 + v / 4096 - 0xE0 = v / 4096 from by omega]

theorem utf8_decode_three (v : Nat) (h1 : 0x800 ≤ v) (h2 : v < 0x10000)
    (hs : v < 0xD800 ∨ 0xDFFF < v) (bs : List Nat) :
    utf8DecodeGo none
        ((0xE0 + v / 4096) :: (0x80 + v / 64 % 64) :: (0x80 + v % 64) :: bs) =
      Char.ofNat v :: utf8DecodeGo none bs ∧
    utf8DecodeGo none [0xE0 + v / 4096] = [replChar] ∧
    utf8DecodeGo none [0xE0 + v / 4096, 0x80 + v / 64 % 64] = [replChar] := by
  obtain ⟨lo, hi, hstart, hlo, hhi⟩ := utf8Start_three v h1 h2 hs
  refine ⟨?_, ?_, ?_⟩
  · simp only [utf8DecodeGo, hstart, List.nil_append]
    rw [if_pos ⟨hlo, hhi⟩, if_neg (by omega : ¬(2 = 1)),
        if_pos (by omega : (0x80:Nat) ≤ 0x80 + v % 64 ∧ 0x80 + v % 64 ≤ 0xBF),
        if_pos trivial,
        show (v / 4096 * 64 + (0x80 + v / 64 % 64 - 0x80)) * 64 +
            (0x80 + v % 64 - 0x80) = v from by omega]
  · simp [utf8DecodeGo, hstart]
  · simp only [utf8DecodeGo, hstart, List.nil_append]
    rw [if_pos ⟨hlo, hhi⟩]
    simp

theorem utf8Start_four (v : Nat) (h1 : 0x10000 ≤ v) (h2 : v < 0x110000) :
    ∃ lo hi : Nat,
      utf8Start (0xF0 + v / 262144) = ([], some ⟨v / 262144, 3, lo, hi⟩) ∧
      lo ≤ 0x80 + v / 4096 % 64 ∧ 0x80 + v / 4096 % 64 ≤ hi := by
  by_cases hF0 : v < 0x40000
  · refine ⟨0x90, 0xBF, ?_, by omega, by omega⟩
    rw [show 0xF0 + v / 262144 = 0xF0 from by omega,
        show v / 262144 = 0 from by omega]
    decide
  · by_cases hF4 : 0x100000 ≤ v
    · refine ⟨0x80, 0x8F, ?_, by omega, by omega⟩
      rw [show 0xF0 + v / 262144 = 0xF4 from by omega,
          show v / 262144 = 4 from by omega]
      decide
    · refine ⟨0x80, 0xBF, ?_, by omega, by omega⟩
      unfold utf8Start
      rw [if_neg (by omega), if_neg (by omega), if_neg (by omega),
          if_pos (by omega), if_neg (by omega), if_neg (by omega),
          show 0xF0 + v / 262144 - 0xF0 = v / 262144 from by omega]

theorem utf8_decode_four (v : Nat) (h1 : 0x10000 ≤ v) (h2 : v < 0x110000)
    (bs : List Nat) :
    utf8DecodeGo none ((0xF0 + v / 262144) :: (0x80 + v / 4096 % 64) ::
        (0x80 + v / 64 % 64) :: (0x80 + v % 64) :: bs) =
      Char.ofNat v :: utf8DecodeGo none bs ∧
    utf8DecodeGo none [0xF0 + v / 262144] = [replChar] ∧
    utf8DecodeGo none [0xF0 + v / 262144, 0x80 + v / 4096 % 64] =
      [replChar] ∧
    utf8DecodeGo none [0xF0 + v / 262144, 0x80 + v / 4096 % 64,
        0x80 + v / 64 % 64] = [replChar] := by
  obtain ⟨lo, hi, hstart, hlo, hhi⟩ := utf8Start_four v h1 h2
  refine ⟨?_, ?_, ?_, ?_⟩
  · simp only [utf8DecodeGo, hstart, List.nil_append]
    rw [if_pos ⟨hlo, hhi⟩, if_neg (by omega : ¬(3 = 1)),
        if_pos (by omega :
          (0x80:Nat) ≤ 0x80 + v / 64 % 64 ∧ 0x80 + v / 64 % 64 ≤ 0xBF),
        if_pos (by omega :
          (0x80:Nat) ≤ 0x80 + v % 64 ∧ 0x80 + v % 64 ≤ 0xBF),
        if_neg (by omega : ¬(3 - 1 = 1)), if_pos trivial,
        show ((v / 262144 * 64 + (0x80 + v / 4096 % 64 - 0x80)) * 64 +
            (0x80 + v / 64 % 64 - 0x80)) * 64 + (0x80 + v % 64 - 0x80) = v
          from by omega]
  · simp [utf8DecodeGo, hstart]
  · simp only [utf8DecodeGo, hstart, List.nil_append]
    rw [if_pos ⟨hlo, hhi⟩]
    simp
  · simp only [utf8DecodeGo, hstart, List.nil_append]
    rw [if_pos ⟨hlo, hhi⟩,
        if_pos (by omega :
          (0x80:Nat) ≤ 0x80 + v / 64 % 64 ∧ 0x80 + v / 64 % 64 ≤ 0xBF)]
    simp

theorem utf8_decode_char (c : Char) (bs : List Nat) :
    utf8DecodeGo none (utf8EncodeChar c ++ bs) = c :: utf8DecodeGo none bs := by
  have hv := char_toNat_valid c
  by_cases a1 : c.toNat < 0x80
  · have he : utf8EncodeChar c = [c.toNat] := by
      unfold utf8EncodeChar
      rw [if_pos a1]
    rw [he, List.singleton_append, utf8_decode_one c.toNat a1 bs,
        Char.ofNat_toNat]
  · by_cases a2 : c.toNat < 0x800
    · have he : utf8EncodeChar c =
          [0xC0 + c.toNat / 64, 0x80 + c.toNat % 64] := by
        unfold utf8EncodeChar
        rw [if_neg a1, if_pos a2]
      rw [he]
      have h := (utf8_decode_two c.toNat (by omega) a2 bs).1
      simpa [Char.ofNat_toNat] using h
    · by_cases a3 : c.toNat < 0x10000
      · have hs : c.toNat < 0xD800 ∨ 0xDFFF < c.toNat := by omega
        have he : utf8EncodeChar c = [0xE0 + c.toNat / 4096,
            0x80 + c.toNat / 64 % 64, 0x80 + c.toNat % 64] := by
          unfold utf8EncodeChar
          rw [if_neg a1, if_neg a2, if_pos a3]
        rw [he]
        have h := (utf8_decode_three c.toNat (by omega) a3 hs bs).1
        simpa [Char.ofNat_toNat] using h
      · have he : utf8EncodeChar c = [0xF0 + c.toNat / 262144,
            0x80 + c.toNat / 4096 % 64, 0x80 + c.toNat / 64 % 64,
            0x80 + c.toNat % 64] := by
          unfold utf8EncodeChar
          rw [if_neg a1, if_neg a2, if_neg a3]
        rw [he]
        have h := (utf8_decode_four c.toNat (by omega) (by omega) bs).1
        simpa [Char.ofNat_toNat] using h

theorem utf8_decode_cutNotWhole (c : Char) (n : Nat) (h0 : 0 < n)
    (hn : n < utf8CharLen c) :
    utf8DecodeGo none ((utf8EncodeChar c).take n) = [replChar] := by
  have hv := char_toNat_valid c
  unfold utf8CharLen at hn
  by_cases a1 : c.toNat < 0x80
  · rw [if_pos a1] at hn
    omega
  · by_cases a2 : c.toNat < 0x800
    · rw [if_neg a1, if_pos a2] at hn
      have he : utf8EncodeChar c =
          [0xC0 + c.toNat / 64, 0x80 + c.toNat % 64] := by
        unfold utf8EncodeChar
        rw [if_neg a1, if_pos a2]
      obtain rfl : n = 1 := by omega
      rw [he]
      simpa using (utf8_decode_two c.toNat (by omega) a2 []).2
    · by_cases a3 : c.toNat < 0x10000
      · rw [if_neg a1, if_neg a2, if_pos a3] at hn
        have hs : c.toNat < 0xD800 ∨ 0xDFFF < c.toNat := by omega
        have he : utf8EncodeChar c = [0xE0 + c.toNat / 4096,
            0x80 + c.toNat / 64 % 64, 0x80 + c.toNat % 64] := by
          unfold utf8EncodeChar
          rw [if_neg a1, if_neg a2, if_pos a3]
        have h3 := utf8_decode_three c.toNat (by omega) a3 hs []
        rw [he]
        rcases (by omega : n = 1 ∨ n = 2) with rfl | rfl
        · simpa using h3.2.1
        · simpa using h3.2.2
      · rw [if_neg a1, if_neg a2, if_neg a3] at hn
        have he : utf8EncodeChar c = [0xF0 + c.toNat / 262144,
            0x80 + c.toNat / 4096 % 64, 0x80 + c.toNat / 64 % 64,
            0x80 + c.toNat % 64] := by
          unfold utf8EncodeChar
          rw [if_neg a1, if_neg a2, if_neg a3]
        have h4 := utf8_decode_four c.toNat (by omega) (by omega) []
        rw [he]
        rcases (by omega : n = 1 ∨ n = 2 ∨ n = 3) with rfl | rfl | rfl
        · simpa using h4.2.1
        · simpa using h4.2.2.1
        · simpa using h4.2.2.2

/-- The central decoding fact behind the truncation behaviour: slicing the
UTF-8 encoding of `s` to `n` bytes and decoding non-fatally yields the
longest whole-character prefix of `s` that fits in `n` bytes, followed by
exactly one U+FFFD when the cut fell strictly inside a character. -/
theorem utf8_decode_take (s : Line) (n : Nat) :
    utf8Decode ((utf8Encode s).take n) =
      utf8Take n s ++ (if utf8CutsMid n s then [replChar] else []) := by
  induction s generalizing n with
  | nil => simp [utf8Encode, utf8Take, utf8CutsMid, utf8Decode, utf8DecodeGo]
  | cons c cs ih =>
    have hlen := utf8EncodeChar_length c
    show utf8Decode ((utf8EncodeChar c ++ utf8Encode cs).take n) = _
    by_cases hn : utf8CharLen c ≤ n
    · rw [List.take_append_eq_append_take,
          List.take_of_length_le (by rw [hlen]; exact hn), hlen]
      unfold utf8Decode
      rw [utf8_decode_char]
      have hih := ih (n - utf8CharLen c)
      unfold utf8Decode at hih
      rw [hih]
      simp only [utf8Take, utf8CutsMid, if_pos hn]
      simp
    · rcases (by omega : n = 0 ∨ 0 < n) with rfl | h0
      · simp [utf8Take, utf8CutsMid, hn, utf8Decode, utf8DecodeGo]
      · rw [List.take_append_eq_append_take,
            show n - (utf8EncodeChar c).length = 0 from by rw [hlen]; omega]
        simp only [List.take_zero, List.append_nil]
        unfold utf8Decode
        rw [utf8_decode_cutNotWhole c n h0 (by omega)]
        simp only [utf8Take, utf8CutsMid, if_neg hn]
        simp [h0]

/-- The line-cut step of `truncateLogs`: the kept text and whether a line
cut happened. -/
def lineStep (logs : Line) (maxLines : Option Nat) : Line × Bool :=
  match maxLines with
  | some m =>
    if m < (splitLines logs).length then
      (joinLines ((splitLines logs).take m), true)
    else (logs, false)
  | none => (logs, false)

/-- C4, counterexample: truncating the two-byte character `"é"` to one
byte does not drop the partially-cut character — the result is the U+FFFD
replacement character, which is non-empty and three bytes long, so the
result exceeds `maxBytes`. -/
theorem truncateLogs_counterexample :
    (truncateLogs "é".toList 1 none).logs = [replChar] ∧
    (truncateLogs "é".toList 1 none).logs ≠ [] ∧
    (truncateLogs "é".toList 1 none).logs ≠ "é".toList ∧
    utf8ByteLen (truncateLogs "é".toList 1 none).logs = 3 ∧
    ¬utf8ByteLen (truncateLogs "é".toList 1 none).logs ≤ 1 ∧
    (truncateLogs "é".toList 1 none).truncated = true ∧
    (truncateLogs "é".toList 1 none).originalSize = 2 := by decide

/-- C4 as amended: `truncateLogs` first cuts to the first `maxLines` lines
exactly when the line count exceeds `maxLines`; then, if the byte length
still exceeds `maxBytes`, the result is the longest whole-character prefix
fitting in `maxBytes` bytes followed by one U+FFFD replacement character
when the cut fell inside a multi-byte character (the partial character is
replaced, not dropped); `truncated` is true iff at least one cut happened,
and `originalSize` is the byte length of the input to this call. -/
theorem truncateLogs_spec (logs : Line) (maxBytes : Nat)
    (maxLines : Option Nat) :
    (truncateLogs logs maxBytes maxLines).originalSize = utf8ByteLen logs ∧
    (truncateLogs logs maxBytes maxLines).logs =
      (if maxBytes < utf8ByteLen (lineStep logs maxLines).1 then
        utf8Take maxBytes (lineStep logs maxLines).1 ++
          (if utf8CutsMid maxBytes (lineStep logs maxLines).1 then [replChar]
           else [])
       else (lineStep logs maxLines).1) ∧
    ((truncateLogs logs maxBytes maxLines).truncated = true ↔
      ((lineStep logs maxLines).2 = true ∨
        maxBytes < utf8ByteLen (lineStep logs maxLines).1)) ∧
    ((lineStep logs maxLines).2 = true ↔
      ∃ m, maxLines = some m ∧ m < (splitLines logs).length) ∧
    utf8ByteLen (utf8Take maxBytes (lineStep logs maxLines).1) ≤ maxBytes := by
  have hstep : truncateLogs logs maxBytes maxLines =
      (if maxBytes < utf8ByteLen (lineStep logs maxLines).1 then
        ⟨utf8Decode ((utf8Encode (lineStep logs maxLines).1).take maxBytes),
         true, utf8ByteLen logs⟩
       else ⟨(lineStep logs maxLines).1, (lineStep logs maxLines).2,
         utf8ByteLen logs⟩) := by
    unfold truncateLogs lineStep
    cases maxLines with
    | none => rfl
    | some m => rfl
  refine ⟨?_, ?_, ?_, ?_, utf8ByteLen_utf8Take _ _⟩
  · rw [hstep]
    split <;> rfl
  · rw [hstep]
    by_cases hb : maxBytes < utf8ByteLen (lineStep logs maxLines).1
    · rw [if_pos hb, if_pos hb]
      exact utf8_decode_take _ _
    · rw [if_neg hb, if_neg hb]
  · rw [hstep]
    by_cases hb : maxBytes < utf8ByteLen (lineStep logs maxLines).1
    · rw [if_pos hb]
      simp [hb]
    · rw [if_neg hb]
      simp [hb]
  · unfold lineStep
    cases maxLines with
    | none => simp
    | some m =>
      by_cases hm : m < (splitLines logs).length
      · simp [hm]
      · simp [hm]

/-!
## Claim theorems: the full pipeline (C5)
-/

theorem truncateLogs_originalSize (logs : Line) (maxBytes : Nat)
    (maxLines : Option Nat) :
    (truncateLogs logs maxBytes maxLines).originalSize = utf8ByteLen logs := by
  have hstep : truncateLogs logs maxBytes maxLines =
      (if maxBytes < utf8ByteLen (lineStep logs maxLines).1 then
        ⟨utf8Decode ((utf8Encode (lineStep logs maxLines).1).take maxBytes),
         true, utf8ByteLen logs⟩
       else ⟨(lineStep logs maxLines).1, (lineStep logs maxLines).2,
         utf8ByteLen logs⟩) := by
    unfold truncateLogs lineStep
    cases maxLines with
    | none => rfl
    | some m => rfl
  rw [hstep]
  split <;> rfl

/-- C5: `processLogs` is the pipeline severity filter (if requested), then
grep filter (if a non-empty pattern is given; a thrown invalid-pattern
error propagates), then truncation with `maxBytes || MAX_SAFE_INTEGER` and
the optional `maxLines` — and the returned `originalSize` is the byte
length of the text after filtering but before truncation. -/
theorem processLogs_spec (E : RegexEngine) (logs : Line)
    (o : LogFilterOptions) :
    processLogs E logs o =
      (match o.severityFilter with
       | some f => Except.ok (filterBySeverity logs f)
       | none => Except.ok logs) >>= (fun s1 =>
      (match o.grep with
       | some p => if p.isEmpty then Except.ok s1 else grepLogs E s1 p
       | none => Except.ok s1) >>= (fun s2 =>
      Except.ok
        ⟨(truncateLogs s2
            (match o.maxBytes with
             | some n => if n = 0 then maxSafeInteger else n
             | none => maxSafeInteger) o.maxLines).logs,
         ⟨(truncateLogs s2
            (match o.maxBytes with
             | some n => if n = 0 then maxSafeInteger else n
             | none => maxSafeInteger) o.maxLines).truncated,
          utf8ByteLen s2⟩⟩)) := by
  unfold processLogs
  cases o.severityFilter with
  | none =>
    cases o.grep with
    | none => simp [bind, Except.bind, truncateLogs_originalSize]
    | some p =>
      by_cases hp : p.isEmpty
      · simp [hp, bind, Except.bind, truncateLogs_originalSize]
      · cases hc : E.compile p with
        | none =>
          simp [hp, hc, grepLogs, bind, Except.bind]
        | some f =>
          simp [hp, hc, grepLogs, bind, Except.bind,
            truncateLogs_originalSize]
  | some sf =>
    cases o.grep with
    | none => simp [bind, Except.bind, truncateLogs_originalSize]
    | some p =>
      by_cases hp : p.isEmpty
      · simp [hp, bind, Except.bind, truncateLogs_originalSize]
      · cases hc : E.compile p with
        | none =>
          simp [hp, hc, grepLogs, bind, Except.bind]
        | some f =>
          simp [hp, hc, grepLogs, bind, Except.bind,
            truncateLogs_originalSize]

/-!
## Claim theorems: summarizer (C6)
-/

/-- The non-blank lines the summarizer scans. -/
def summaryLines (logs : Line) : List Line :=
  (splitLines logs).filter fun l => !trimEmpty l

/-- The ERROR-classified scanned lines, in original order. -/
def errorLines (logs : Line) : List Line :=
  (summaryLines logs).filter fun l => decide (detectSeverity l = .ERROR)

/-- The error groups as `topErrors` entries, in first-seen order. -/
def errorGroups (A : LogAux) (logs : Line) : List TopError :=
  (extractErrorPatterns A (errorLines logs)).map fun g =>
    ⟨g.1, g.2.length, g.2.headD []⟩

theorem countsGet_bump (c : SevCounts) (sev s : Severity) :
    countsGet (bumpCount c sev) s =
      countsGet c s + (if sev = s then 1 else 0) := by
  cases sev <;> cases s <;> simp [bumpCount, countsGet]

theorem scanLine_fields (A : LogAux) (acc : ScanAcc) (line : Line) :
    (scanLine A acc line).counts =
      bumpCount acc.counts (detectSeverity line) ∧
    (scanLine A acc line).errors =
      (if detectSeverity line = .ERROR then acc.errors ++ [line]
       else acc.errors) := by
  unfold scanLine
  cases A.findTimestamp line <;> simp

theorem scan_foldl_counts (A : LogAux) (lines : List Line) (acc : ScanAcc)
    (s : Severity) :
    countsGet ((lines.foldl (scanLine A) acc).counts) s =
      countsGet acc.counts s +
        lines.countP (fun l => decide (detectSeverity l = s)) := by
  induction lines generalizing acc with
  | nil => simp
  | cons l ls ih =>
    rw [List.foldl_cons, ih, List.countP_cons]
    rw [(scanLine_fields A acc l).1, countsGet_bump]
    by_cases h : detectSeverity l = s
    · simp [h]
      omega
    · simp [h]

theorem scan_foldl_errors (A : LogAux) (lines : List Line) (acc : ScanAcc) :
    (lines.foldl (scanLine A) acc).errors =
      acc.errors ++ lines.filter (fun l => decide (detectSeverity l = .ERROR)) := by
  induction lines generalizing acc with
  | nil => simp
  | cons l ls ih =>
    rw [List.foldl_cons, ih, List.filter_cons]
    rw [(scanLine_fields A acc l).2]
    by_cases h : detectSeverity l = .ERROR
    · simp [h]
    · simp [h]

theorem addSample_lookup_self (m : List (Line × List Line)) (k : Line)
    (v : Line) :
    (addSample m k v).lookup k = some ((m.lookup k).getD [] ++ [v]) := by
  induction m with
  | nil => simp [addSample, List.lookup]
  | cons p rest ih =>
    obtain ⟨k', vs⟩ := p
    unfold addSample
    by_cases h : k' = k
    · subst h
      simp [List.lookup]
    · rw [if_neg h]
      have hb : (k == k') = false := by simp [Ne.symm h]
      simp [List.lookup, hb, ih]

theorem addSample_lookup_other (m : List (Line × List Line)) (k k' : Line)
    (v : Line) (h : k' ≠ k) :
    (addSample m k v).lookup k' = m.lookup k' := by
  induction m with
  | nil =>
    have hb : (k' == k) = false := by simp [h]
    simp [addSample, List.lookup, hb]
  | cons p rest ih =>
    obtain ⟨k0, vs⟩ := p
    unfold addSample
    by_cases h0 : k0 = k
    · subst h0
      have hb : (k' == k0) = false := by simp [h]
      simp [List.lookup, hb]
    · rw [if_neg h0]
      cases hb : (k' == k0) with
      | true => simp [List.lookup, hb]
      | false => simp [List.lookup, hb, ih]

theorem addSample_keys (m : List (Line × List Line)) (k : Line) (v : Line) :
    (addSample m k v).map Prod.fst =
      (if m.lookup k = none then m.map Prod.fst ++ [k]
       else m.map Prod.fst) := by
  induction m with
  | nil => simp [addSample, List.lookup]
  | cons p rest ih =>
    obtain ⟨k0, vs⟩ := p
    unfold addSample
    by_cases h0 : k0 = k
    · subst h0
      simp [List.lookup]
    · have hb : (k == k0) = false := by simp [Ne.symm h0]
      rw [if_neg h0]
      simp only [List.lookup, hb, List.map_cons, ih]
      split <;> simp

/-- The predicate grouping an error line under key `k`. -/
def errKeyPred (A : LogAux) (k : Line) (l : Line) : Bool :=
  decide (detectSeverity l = .ERROR) && (patternKey A l == k)

/-- `extractErrorPatterns` with an explicit accumulator. -/
def extractGo (A : LogAux) (m : List (Line × List Line)) (ls : List Line) :
    List (Line × List Line) :=
  ls.foldl
    (fun m line =>
      if detectSeverity line = .ERROR then addSample m (patternKey A line) line
      else m)
    m

theorem extract_eq_go (A : LogAux) (ls : List Line) :
    extractErrorPatterns A ls = extractGo A [] ls := rfl

theorem lookup_none_iff (m : List (Line × List Line)) (k : Line) :
    m.lookup k = none ↔ k ∉ m.map Prod.fst := by
  induction m with
  | nil => simp [List.lookup]
  | cons p rest ih =>
    obtain ⟨k0, vs⟩ := p
    cases hb : (k == k0) with
    | true =>
      have : k = k0 := by simpa using hb
      simp [List.lookup, hb, this]
    | false =>
      have : k ≠ k0 := by simpa using hb
      simp [List.lookup, hb, ih, this]

theorem addSample_keys_nodup (m : List (Line × List Line)) (k : Line)
    (v : Line) (h : (m.map Prod.fst).Nodup) :
    ((addSample m k v).map Prod.fst).Nodup := by
  rw [addSample_keys]
  by_cases hn : m.lookup k = none
  · rw [if_pos hn]
    have hk : k ∉ m.map Prod.fst := (lookup_none_iff m k).mp hn
    simp [List.nodup_append, h, hk]
  · rw [if_neg hn]
    exact h

theorem mem_lookup_of_nodup (m : List (Line × List Line))
    (p : Line × List Line) (hmem : p ∈ m)
    (hnd : (m.map Prod.fst).Nodup) : m.lookup p.1 = some p.2 := by
  induction m with
  | nil => cases hmem
  | cons q rest ih =>
    obtain ⟨k0, vs⟩ := q
    rw [List.map_cons, List.nodup_cons] at hnd
    rcases List.mem_cons.mp hmem with rfl | hmem'
    · simp [List.lookup]
    · have hne : (p.1 == k0) = false := by
        simp only [beq_eq_false_iff_ne, ne_eq]
        intro he
        apply hnd.1
        rw [← he]
        exact List.mem_map.mpr ⟨p, hmem', rfl⟩
      simp only [List.lookup, hne]
      exact ih hmem' hnd.2

theorem extract_go_lookup (A : LogAux) (ls : List Line) :
    ∀ (m : List (Line × List Line)) (k : Line),
    (extractGo A m ls).lookup k =
      (match m.lookup k with
       | some vs => some (vs ++ ls.filter (errKeyPred A k))
       | none =>
         if (ls.filter (errKeyPred A k)).isEmpty then none
         else some (ls.filter (errKeyPred A k))) := by
  induction ls with
  | nil =>
    intro m k
    unfold extractGo
    simp only [List.foldl_nil, List.filter_nil]
    cases m.lookup k <;> simp
  | cons l rest ih =>
    intro m k
    unfold extractGo at ih ⊢
    rw [List.foldl_cons, List.filter_cons]
    by_cases hE : detectSeverity l = .ERROR
    · rw [if_pos hE]
      by_cases hk : patternKey A l = k
      · have hp : errKeyPred A k l = true := by simp [errKeyPred, hE, hk]
        rw [hp, ih (addSample m (patternKey A l) l) k, hk,
            addSample_lookup_self]
        cases hm : m.lookup k with
        | some vs => simp [hm]
        | none => simp [hm]
      · have hp : errKeyPred A k l = false := by simp [errKeyPred, hk]
        rw [ih (addSample m (patternKey A l) l) k,
            addSample_lookup_other m (patternKey A l) k l (Ne.symm hk), hp]
        simp
    · rw [if_neg hE]
      have hp : errKeyPred A k l = false := by simp [errKeyPred, hE]
      rw [ih m k, hp]
      simp

theorem extract_keys_nodup (A : LogAux) (ls : List Line) :
    ∀ m, (m.map Prod.fst).Nodup →
      ((extractGo A m ls).map Prod.fst).Nodup := by
  induction ls with
  | nil => intro m h; exact h
  | cons l rest ih =>
    intro m h
    unfold extractGo
    rw [List.foldl_cons]
    by_cases hE : detectSeverity l = .ERROR
    · rw [if_pos hE]
      exact ih _ (addSample_keys_nodup _ _ _ h)
    · rw [if_neg hE]
      exact ih _ h

theorem extract_mem (A : LogAux) (ls : List Line) (k : Line)
    (vs : List Line) (hmem : (k, vs) ∈ extractErrorPatterns A ls) :
    vs = ls.filter (errKeyPred A k) ∧ vs ≠ [] := by
  have hnd : ((extractErrorPatterns A ls).map Prod.fst).Nodup := by
    rw [extract_eq_go]
    exact extract_keys_nodup A ls [] (by simp)
  have hl := mem_lookup_of_nodup _ _ hmem hnd
  have hc := extract_go_lookup A ls [] k
  rw [← extract_eq_go] at hc
  rw [hl] at hc
  simp only [show ([] : List (Line × List Line)).lookup k = none from rfl] at hc
  by_cases he : (ls.filter (errKeyPred A k)).isEmpty
  · rw [if_pos he] at hc
    cases hc
  · rw [if_neg he] at hc
    have hv : vs = ls.filter (errKeyPred A k) := by
      injection hc
    refine ⟨hv, ?_⟩
    intro hnil
    apply he
    rw [← hv, hnil]
    rfl

theorem insertByCount_perm (x : TopError) (l : List TopError) :
    (insertByCount x l).Perm (x :: l) := by
  induction l with
  | nil => simp [insertByCount]
  | cons y ys ih =>
    unfold insertByCount
    by_cases h : x.count ≤ y.count
    · rw [if_pos h]
      exact (ih.cons y).trans (List.Perm.swap x y ys)
    · rw [if_neg h]

theorem insertByCount_pairwise (x : TopError) (l : List TopError)
    (h : l.Pairwise (fun a b => b.count ≤ a.count)) :
    (insertByCount x l).Pairwise (fun a b => b.count ≤ a.count) := by
  induction l with
  | nil => simp [insertByCount]
  | cons y ys ih =>
    rw [List.pairwise_cons] at h
    unfold insertByCount
    by_cases hxy : x.count ≤ y.count
    · rw [if_pos hxy, List.pairwise_cons]
      refine ⟨?_, ih h.2⟩
      intro z hz
      have hz' := (insertByCount_perm x ys).mem_iff.mp hz
      rcases List.mem_cons.mp hz' with rfl | hzys
      · exact hxy
      · exact h.1 z hzys
    · rw [if_neg hxy, List.pairwise_cons]
      refine ⟨?_, List.pairwise_cons.mpr h⟩
      intro z hz
      rcases List.mem_cons.mp hz with rfl | hzys
      · omega
      · have := h.1 z hzys
        omega

theorem insertByCount_filter (x : TopError) (l : List TopError) (c : Nat)
    (h : l.Pairwise (fun a b => b.count ≤ a.count)) :
    (insertByCount x l).filter (fun e => e.count == c) =
      (if x.count == c then
        l.filter (fun e => e.count == c) ++ [x]
       else l.filter (fun e => e.count == c)) := by
  induction l with
  | nil =>
    by_cases hx : (x.count == c) = true <;> simp [insertByCount, hx]
  | cons y ys ih =>
    rw [List.pairwise_cons] at h
    unfold insertByCount
    by_cases hxy : x.count ≤ y.count
    · rw [if_pos hxy, List.filter_cons, List.filter_cons, ih h.2]
      by_cases hyc : (y.count == c) = true <;>
        by_cases hxc : (x.count == c) = true <;>
        simp [hyc, hxc]
    · rw [if_neg hxy]
      by_cases hxc : (x.count == c) = true
      · have hceq : x.count = c := by simpa using hxc
        have hnil : (y :: ys).filter (fun e => e.count == c) = [] := by
          rw [List.filter_eq_nil_iff]
          intro z hz
          have hzle : z.count ≤ y.count := by
            rcases List.mem_cons.mp hz with rfl | hzys
            · omega
            · exact h.1 z hzys
          simp only [beq_iff_eq]
          omega
        simp [List.filter_cons, hxc, hnil]
      · simp [List.filter_cons, hxc]

theorem sortGo_pairwise (l : List TopError) :
    ∀ acc, acc.Pairwise (fun a b => b.count ≤ a.count) →
      (l.foldl (fun acc x => insertByCount x acc) acc).Pairwise
        (fun a b => b.count ≤ a.count) := by
  induction l with
  | nil => intro acc h; exact h
  | cons x xs ih =>
    intro acc h
    rw [List.foldl_cons]
    exact ih _ (insertByCount_pairwise x acc h)

theorem sortGo_perm (l : List TopError) :
    ∀ acc, (l.foldl (fun acc x => insertByCount x acc) acc).Perm (acc ++ l) := by
  induction l with
  | nil => intro acc; simp
  | cons x xs ih =>
    intro acc
    rw [List.foldl_cons]
    refine ((ih (insertByCount x acc)).trans ?_)
    refine (((insertByCount_perm x acc).append_right xs).trans ?_)
    exact List.perm_middle.symm

theorem sortGo_filter (l : List TopError) (c : Nat) :
    ∀ acc, acc.Pairwise (fun a b => b.count ≤ a.count) →
      (l.foldl (fun acc x => insertByCount x acc) acc).filter
          (fun e => e.count == c) =
        acc.filter (fun e => e.count == c) ++
          l.filter (fun e => e.count == c) := by
  induction l with
  | nil => intro acc _; simp
  | cons x xs ih =>
    intro acc h
    rw [List.foldl_cons, ih _ (insertByCount_pairwise x acc h),
        insertByCount_filter x acc c h, List.filter_cons]
    by_cases hxc : (x.count == c) = true <;> simp [hxc]

theorem sortByCountDesc_pairwise (l : List TopError) :
    (sortByCountDesc l).Pairwise (fun a b => b.count ≤ a.count) :=
  sortGo_pairwise l [] (by simp)

theorem sortByCountDesc_perm (l : List TopError) :
    (sortByCountDesc l).Perm l :=
  sortGo_perm l []

theorem sortByCountDesc_filter (l : List TopError) (c : Nat) :
    (sortByCountDesc l).filter (fun e => e.count == c) =
      l.filter (fun e => e.count == c) :=
  (sortGo_filter l c [] (by simp)).trans (by simp)

/-- C6 as amended: over the non-blank lines, `summarizeLogs` counts every
tier exactly, keeps the last at-most-five raw ERROR lines in original
order, and ranks the error groups — grouped by normalised-and-capped
pattern key — by descending member count with stable first-seen-wins
ties, keeping at most five entries, each carrying the group's size and
first raw line. -/
theorem summarizeLogs_spec (A : LogAux) (logs : Line) :
    (∀ s, countsGet (summarizeLogs A logs).severityCounts s =
      (summaryLines logs).countP fun l => decide (detectSeverity l = s)) ∧
    (summarizeLogs A logs).recentErrors =
      (errorLines logs).drop ((errorLines logs).length - 5) ∧
    (summarizeLogs A logs).recentErrors.length =
      min (errorLines logs).length 5 ∧
    List.IsSuffix (summarizeLogs A logs).recentErrors (errorLines logs) ∧
    (summarizeLogs A logs).topErrors =
      (sortByCountDesc (errorGroups A logs)).take 5 ∧
    (summarizeLogs A logs).topErrors.length ≤ 5 ∧
    (summarizeLogs A logs).topErrors.Pairwise
      (fun a b => b.count ≤ a.count) ∧
    (sortByCountDesc (errorGroups A logs)).Perm (errorGroups A logs) ∧
    (∀ c, (sortByCountDesc (errorGroups A logs)).filter
        (fun e => e.count == c) =
      (errorGroups A logs).filter (fun e => e.count == c)) ∧
    (∀ e ∈ (summarizeLogs A logs).topErrors, ∃ vs,
      vs ≠ [] ∧
      vs = (errorLines logs).filter (fun l => patternKey A l == e.pattern) ∧
      e.count = vs.length ∧ e.sample = vs.headD []) := by
  have herr :
      ((summaryLines logs).foldl (scanLine A)
        ⟨zeroCounts, [], none, none⟩).errors = errorLines logs := by
    rw [scan_foldl_errors]
    simp [errorLines]
  have hS : summarizeLogs A logs =
      ⟨(summaryLines logs).length, utf8ByteLen logs,
       ((summaryLines logs).foldl (scanLine A)
         ⟨zeroCounts, [], none, none⟩).earliest,
       ((summaryLines logs).foldl (scanLine A)
         ⟨zeroCounts, [], none, none⟩).latest,
       ((summaryLines logs).foldl (scanLine A)
         ⟨zeroCounts, [], none, none⟩).counts,
       (sortByCountDesc ((extractErrorPatterns A
          (((summaryLines logs).foldl (scanLine A)
            ⟨zeroCounts, [], none, none⟩).errors)).map fun g =>
            ⟨g.1, g.2.length, g.2.headD []⟩)).take 5,
       (((summaryLines logs).foldl (scanLine A)
         ⟨zeroCounts, [], none, none⟩).errors).drop
        ((((summaryLines logs).foldl (scanLine A)
          ⟨zeroCounts, [], none, none⟩).errors).length - 5)⟩ := rfl
  have htop : (summarizeLogs A logs).topErrors =
      (sortByCountDesc (errorGroups A logs)).take 5 := by
    rw [hS]
    unfold errorGroups
    rw [herr]
  have hrec : (summarizeLogs A logs).recentErrors =
      (errorLines logs).drop ((errorLines logs).length - 5) := by
    rw [hS]
    simp only [herr]
  refine ⟨?_, hrec, ?_, ?_, htop, ?_, ?_, sortByCountDesc_perm _,
    fun c => sortByCountDesc_filter _ c, ?_⟩
  · intro s
    rw [hS]
    show countsGet ((summaryLines logs).foldl (scanLine A)
      ⟨zeroCounts, [], none, none⟩).counts s = _
    rw [scan_foldl_counts]
    have h0 : countsGet zeroCounts s = 0 := by cases s <;> rfl
    rw [h0, Nat.zero_add]
  · rw [hrec, List.length_drop]
    omega
  · rw [hrec]
    exact List.drop_suffix _ _
  · rw [htop]
    exact List.length_take_le _ _
  · rw [htop]
    exact List.Pairwise.sublist (List.take_sublist _ _)
      (sortByCountDesc_pairwise _)
  · intro e he
    rw [htop] at he
    have he2 : e ∈ sortByCountDesc (errorGroups A logs) :=
      List.mem_of_mem_take he
    have he3 : e ∈ errorGroups A logs :=
      (sortByCountDesc_perm _).mem_iff.mp he2
    unfold errorGroups at he3
    obtain ⟨g, hg, rfl⟩ := List.mem_map.mp he3
    obtain ⟨hfil, hne⟩ := extract_mem A (errorLines logs) g.1 g.2 hg
    have hcong : (errorLines logs).filter (errKeyPred A g.1) =
        (errorLines logs).filter (fun l => patternKey A l == g.1) := by
      apply List.filter_congr
      intro l hl
      have hE : detectSeverity l = .ERROR := by
        have := (List.mem_filter.mp hl).2
        simpa using this
      simp [errKeyPred, hE]
    exact ⟨g.2, hne, hfil.trans hcong, rfl, rfl⟩

/-- A concrete instance of the summarizer's abstract helpers: identity
normalisation, no timestamps. -/
def trivialAux : LogAux := ⟨fun l => l, fun _ => none⟩

/-- C6, counterexample: the log consisting of one space is one non-empty
line and it is classified `UNKNOWN`, yet `summarizeLogs` counts zero
`UNKNOWN` lines — the scanner drops whitespace-only (blank) lines, not
just empty ones, before counting. -/
theorem summarizeLogs_counterexample :
    detectSeverity " ".toList = .UNKNOWN ∧
    ((splitLines " ".toList).filter (fun l => !l.isEmpty)).countP
      (fun l => decide (detectSeverity l = .UNKNOWN)) = 1 ∧
    countsGet (summarizeLogs trivialAux " ".toList).severityCounts
      .UNKNOWN = 0 := by decide

/-- Witness for the amended C6 at a concrete log. -/
theorem summarizeLogs_spec_witness :
    countsGet (summarizeLogs trivialAux
        "ERROR a\nERROR a\nINFO b".toList).severityCounts .ERROR =
      (summaryLines "ERROR a\nERROR a\nINFO b".toList).countP
        (fun l => decide (detectSeverity l = .ERROR)) ∧
    (summarizeLogs trivialAux
        "ERROR a\nERROR a\nINFO b".toList).topErrors.length ≤ 5 :=
  ⟨(summarizeLogs_spec trivialAux "ERROR a\nERROR a\nINFO b".toList).1
      .ERROR,
   (summarizeLogs_spec trivialAux
      "ERROR a\nERROR a\nINFO b".toList).2.2.2.2.2.1⟩
